import Mathlib

/-!
Verification of the room lifecycle manager of `matchmaking_server.py`
(Pong Force matchmaking server).

The Python module keeps a dict `active_rooms : code ↦ room` guarded by a
lock; every operation below is the body of one lock-protected method of
`RoomManager`.  We embed the dict as an association list with unique keys
(Python dicts cannot hold duplicate keys; key uniqueness is carried as an
explicit hypothesis `keysNodup` where a proof needs it), timestamps as
integer seconds (the code stores `datetime.now().isoformat()` and compares
via `total_seconds()`), and the `save_rooms()` calls as a log of registry
snapshots returned next to the result, so that "exactly one save, after
the mutation" is visible in the model.
-/

/-- `MAX_ROOMS = 1000` from the configuration block of the server. -/
def MAX_ROOMS : Nat := 1000

/-- `MAX_PLAYERS_PER_ROOM = 2` from the configuration block of the server. -/
def MAX_PLAYERS_PER_ROOM : Nat := 2

/-- `ROOM_TIMEOUT = 600` seconds from the configuration block of the server. -/
def ROOM_TIMEOUT : Int := 600

/-- The `host_info` dict passed to `create_room`: the caller may omit keys,
so every field is optional (`dict.get` semantics). -/
structure HostInfo where
  ip : Option String
  port : Option Nat
  public_ip : Option String
deriving DecidableEq

/-- The `"host"` sub-dict stored in a room by `create_room`. -/
structure Host where
  name : String
  ip : Option String
  port : Nat
  public_ip : Option String
deriving DecidableEq

/-- One room dict as built by `create_room`: fields `host`, `players`,
`status`, `created_at`, `last_activity`, `max_players`. -/
structure Room where
  host : Host
  players : List String
  status : String
  created_at : Int
  last_activity : Int
  max_players : Nat
deriving DecidableEq

/-- The `active_rooms` dict, as an insertion-ordered association list. -/
abbrev Registry := List (String × Room)

/-- Dict lookup: `active_rooms[code]` / `code in active_rooms`. -/
def dictLookup : Registry → String → Option Room
  | [], _ => none
  | (k, v) :: t, c => if k = c then some v else dictLookup t c

/-- Dict update at an existing key: Python mutates the room object held
under the key in place; here the value stored under `code` is replaced. -/
def dictSet : Registry → String → Room → Registry
  | [], _, _ => []
  | (k, v) :: t, code, room =>
    if k = code then (code, room) :: dictSet t code room
    else (k, v) :: dictSet t code room

/-- The keys of the registry, in insertion order. -/
def dictKeys (s : Registry) : List String := s.map Prod.fst

/-- A real Python dict never holds a key twice; this is the corresponding
well-formedness of the association-list model. -/
def keysNodup (s : Registry) : Prop := (dictKeys s).Nodup

/-- The rename loop of `join_room`.  The Python loop keeps a counter
`suffix` starting at 1 and runs while `final_name in room["players"]`,
setting `final_name = f"{original_name}_{suffix}"` and incrementing; when
`suffix` passes 100 it overwrites `final_name` with
`f"{original_name}_{uuid.uuid4().hex[:4]}"` and breaks.  We recurse on the
remaining attempt budget `fuel = 101 - suffix` (so the top call has
`fuel = 100` and the candidate built at budget `fuel` is
`original ++ "_" ++ repr (100 - (fuel - 1))`), and pass the random token
of the fallback in as the parameter `fb`. -/
def resolveLoop (original : String) (players : List String) (fb : String) :
    Nat → String → String
  | 0, final => final
  | fuel + 1, final =>
    if final ∈ players then
      if fuel = 0 then original ++ "_" ++ fb
      else resolveLoop original players fb fuel (original ++ "_" ++ Nat.repr (100 - fuel))
    else final

/-- The whole name-resolution step of `join_room`: `final_name` starts as
the requested name, the loop runs with `suffix = 1` (budget 100). -/
def resolveName (original : String) (players : List String) (fb : String) : String :=
  resolveLoop original players fb 100 original

/-- Result of `create_room`: `{"success": True, "room_code": ...}`,
`"Server at maximum capacity"`, or `"Room code already exists"`. -/
inductive CreateResult where
  | roomCreated (room_code : String)
  | capacityExceeded
  | codeConflict
deriving DecidableEq

/-- The success payload of `join_room` (the returned dict minus
`"success": True`). -/
structure JoinSuccess where
  host_ip : Option String
  host_port : Nat
  public_ip : Option String
  players : List String
  status : String
  player_name : String
  name_changed : Bool
deriving DecidableEq

/-- The three error strings `join_room` can return: `"Room not found"`,
`"Room is not accepting players"`, `"Room is full"`. -/
inductive JoinError where
  | roomNotFound
  | roomNotAcceptingPlayers
  | roomFull
deriving DecidableEq

/-- `RoomManager.create_room(room_code, player_name, host_info)`.
Returns the new registry, the result, and the list of `save_rooms()`
snapshots written during the call. -/
def create_room (s : Registry) (room_code player_name : String) (host_info : HostInfo)
    (now : Int) : Registry × CreateResult × List Registry :=
  if s.length ≥ MAX_ROOMS then (s, CreateResult.capacityExceeded, [])
  else if (dictLookup s room_code).isSome then (s, CreateResult.codeConflict, [])
  else
    let room : Room :=
      { host := { name := player_name, ip := host_info.ip,
                  port := host_info.port.getD 5555, public_ip := host_info.public_ip },
        players := [player_name],
        status := "waiting",
        created_at := now,
        last_activity := now,
        max_players := MAX_PLAYERS_PER_ROOM }
    let s1 := s ++ [(room_code, room)]
    (s1, CreateResult.roomCreated room_code, [s1])

/-- `RoomManager.join_room(room_code, player_name)`.  `now` is the value
of `datetime.now()`, `fb` the random token of the rename fallback. -/
def join_room (s : Registry) (room_code player_name : String) (now : Int) (fb : String) :
    Registry × (JoinSuccess ⊕ JoinError) × List Registry :=
  match dictLookup s room_code with
  | none => (s, Sum.inr JoinError.roomNotFound, [])
  | some room =>
    if room.status ≠ "waiting" then (s, Sum.inr JoinError.roomNotAcceptingPlayers, [])
    else if room.players.length ≥ room.max_players then (s, Sum.inr JoinError.roomFull, [])
    else
      let final_name := resolveName player_name room.players fb
      let room1 := { room with players := room.players ++ [final_name], last_activity := now }
      let room2 :=
        if room1.players.length ≥ room1.max_players then { room1 with status := "in_progress" }
        else room1
      let s1 := dictSet s room_code room2
      (s1,
       Sum.inl
         { host_ip := room.host.ip,
           host_port := room.host.port,
           public_ip := room.host.public_ip,
           players := room2.players,
           status := room2.status,
           player_name := final_name,
           name_changed := final_name != player_name },
       [s1])

/-- `RoomManager.update_room_status(room_code, status)`: overwrites the
status unconditionally and stamps `last_activity`.  The `Bool` is the
`"success"` field of the returned dict. -/
def update_room_status (s : Registry) (room_code status : String) (now : Int) :
    Registry × Bool × List Registry :=
  match dictLookup s room_code with
  | none => (s, false, [])
  | some room =>
    let s1 := dictSet s room_code { room with status := status, last_activity := now }
    (s1, true, [s1])

/-- `RoomManager.close_room(room_code)`: deletes the entry if present. -/
def close_room (s : Registry) (room_code : String) : Registry × Bool × List Registry :=
  if (dictLookup s room_code).isSome then
    let s1 := s.filter fun p => p.1 != room_code
    (s1, true, [s1])
  else (s, false, [])

/-- `RoomManager.get_room_info(room_code)`: read-only lookup. -/
def get_room_info (s : Registry) (room_code : String) : Option Room :=
  dictLookup s room_code

/-- `RoomManager.list_rooms()`: all rooms plus their count. -/
def list_rooms (s : Registry) : Registry × Nat := (s, s.length)

/-- The eviction test of `cleanup_old_rooms`:
`(now - last_activity).total_seconds() > ROOM_TIMEOUT`. -/
def expired (now : Int) (p : String × Room) : Bool :=
  decide (now - p.2.last_activity > ROOM_TIMEOUT)

/-- `RoomManager.cleanup_old_rooms()`: collects the codes of expired rooms,
deletes them, saves once if any were deleted, returns the number removed.
`now` is `datetime.now()` of the sweep. -/
def cleanup_old_rooms (s : Registry) (now : Int) : Registry × Nat × List Registry :=
  let to_remove := (s.filter (expired now)).map Prod.fst
  let s1 := s.filter fun p => !expired now p
  (s1, to_remove.length, if to_remove = [] then [] else [s1])

/-- One Registry operation, for reasoning about operation sequences. -/
inductive Op where
  | create (room_code player_name : String) (host_info : HostInfo) (now : Int)
  | join (room_code player_name : String) (now : Int) (fb : String)
  | updateStatus (room_code status : String) (now : Int)
  | close (room_code : String)
  | cleanup (now : Int)
deriving DecidableEq

/-- The registry state after one operation. -/
def applyOp (s : Registry) : Op → Registry
  | Op.create c n h t => (create_room s c n h t).1
  | Op.join c n t fb => (join_room s c n t fb).1
  | Op.updateStatus c st t => (update_room_status s c st t).1
  | Op.close c => (close_room s c).1
  | Op.cleanup t => (cleanup_old_rooms s t).1

/-- The registry state after a sequence of operations. -/
def runOps (s : Registry) (ops : List Op) : Registry := ops.foldl applyOp s

/-- Whether an operation is the administrative status override. -/
def isUpdateStatusOp : Op → Bool
  | Op.updateStatus _ _ _ => true
  | _ => false

/-- The forward ordering `waiting < in_progress < completed` on statuses. -/
def statusRank (st : String) : Nat :=
  if st = "waiting" then 0
  else if st = "in_progress" then 1
  else if st = "completed" then 2
  else 0

/-- The three recognized status strings of the room state machine. -/
def recognizedStatus (st : String) : Prop :=
  st = "waiting" ∨ st = "in_progress" ∨ st = "completed"

instance (st : String) : Decidable (recognizedStatus st) := by
  unfold recognizedStatus; infer_instance

/-- Every room in the registry carries a recognized status. -/
def allRecognized (s : Registry) : Prop := ∀ p ∈ s, recognizedStatus p.2.status


/-! ### Association-list (dict) lemmas -/

theorem dictLookup_eq_none_iff (l : Registry) (c : String) :
    dictLookup l c = none ↔ c ∉ dictKeys l := by
  induction l with
  | nil => simp [dictLookup, dictKeys]
  | cons p t ih =>
    obtain ⟨k, v⟩ := p
    by_cases hk : k = c
    · subst hk
      simp [dictLookup, dictKeys]
    · simp [dictLookup, dictKeys, hk, Ne.symm hk] at ih ⊢
      exact ih

theorem dictLookup_append_left {l l' : Registry} {c : String} {v : Room}
    (h : dictLookup l c = some v) : dictLookup (l ++ l') c = some v := by
  induction l with
  | nil => simp [dictLookup] at h
  | cons p t ih =>
    obtain ⟨k, w⟩ := p
    by_cases hk : k = c
    · subst hk
      simp [dictLookup] at h ⊢
      exact h
    · simp [dictLookup, hk] at h ⊢
      exact ih h

theorem dictLookup_append_right {l l' : Registry} {c : String}
    (h : dictLookup l c = none) : dictLookup (l ++ l') c = dictLookup l' c := by
  induction l with
  | nil => simp [dictLookup]
  | cons p t ih =>
    obtain ⟨k, w⟩ := p
    by_cases hk : k = c
    · subst hk; simp [dictLookup] at h
    · simp [dictLookup, hk] at h ⊢
      exact ih h

theorem dictKeys_dictSet (s : Registry) (k : String) (v : Room) :
    dictKeys (dictSet s k v) = dictKeys s := by
  induction s with
  | nil => rfl
  | cons p t ih =>
    obtain ⟨k', w⟩ := p
    by_cases hk : k' = k
    · subst hk; simp [dictKeys, dictSet] at ih ⊢; exact ih
    · simp [dictKeys, dictSet, hk] at ih ⊢; exact ih

theorem dictLookup_dictSet_self (s : Registry) (k : String) (v : Room) :
    dictLookup (dictSet s k v) k = (dictLookup s k).map fun _ => v := by
  induction s with
  | nil => rfl
  | cons p t ih =>
    obtain ⟨k', w⟩ := p
    by_cases hk : k' = k
    · subst hk; simp [dictSet, dictLookup]
    · simp [dictSet, dictLookup, hk, ih]

theorem dictLookup_dictSet_ne (s : Registry) (k : String) (v : Room) (c : String)
    (h : c ≠ k) : dictLookup (dictSet s k v) c = dictLookup s c := by
  induction s with
  | nil => rfl
  | cons p t ih =>
    obtain ⟨k', w⟩ := p
    by_cases hk : k' = k
    · subst hk
      simp [dictSet, dictLookup, Ne.symm h, ih]
    · simp [dictSet, dictLookup, hk, ih]

theorem dictLookup_filter_key (l : Registry) (k c : String) :
    dictLookup (l.filter fun p => p.1 != k) c
      = if c = k then none else dictLookup l c := by
  induction l with
  | nil => simp [dictLookup]
  | cons p t ih =>
    obtain ⟨k', w⟩ := p
    by_cases hk : k' = k
    · subst hk
      by_cases hc : k' = c
      · subst hc; simp [dictLookup, ih]
      · simp [List.filter_cons, dictLookup, hc, ih, Ne.symm hc]
    · by_cases hc : k' = c
      · subst hc; simp [List.filter_cons, dictLookup, hk, Ne.symm hk]
      · simp [List.filter_cons, dictLookup, hk, hc, ih]

theorem dictLookup_filter_of_none {l : Registry} {c : String} (q : String × Room → Bool)
    (h : dictLookup l c = none) : dictLookup (l.filter q) c = none := by
  induction l with
  | nil => simp [dictLookup]
  | cons p t ih =>
    obtain ⟨k, w⟩ := p
    by_cases hk : k = c
    · subst hk; simp [dictLookup] at h
    · simp [dictLookup, hk] at h
      by_cases hq : q (k, w)
      · simp [List.filter_cons, hq, dictLookup, hk]
        exact ih h
      · simp [List.filter_cons, hq]
        exact ih h

theorem dictLookup_filter {l : Registry} {c : String} {v : Room} (q : String × Room → Bool)
    (hnd : keysNodup l) (h : dictLookup l c = some v) :
    dictLookup (l.filter q) c = if q (c, v) then some v else none := by
  induction l with
  | nil => simp [dictLookup] at h
  | cons p t ih =>
    obtain ⟨k, w⟩ := p
    have hnd2 : k ∉ t.map Prod.fst ∧ (t.map Prod.fst).Nodup := by
      simpa [keysNodup, dictKeys, List.nodup_cons] using hnd
    have hnd' : keysNodup t := hnd2.2
    by_cases hk : k = c
    · subst hk
      simp [dictLookup] at h
      have hkt : dictLookup t k = none := by
        rw [dictLookup_eq_none_iff]
        simpa [dictKeys] using hnd2.1
      subst h
      by_cases hq : q (k, w)
      · simp [List.filter_cons, hq, dictLookup]
      · simp [List.filter_cons, hq, dictLookup_filter_of_none q hkt]
    · simp [dictLookup, hk] at h
      by_cases hq : q (k, w)
      · simp [List.filter_cons, hq, dictLookup, hk]
        exact ih hnd' h
      · simp [List.filter_cons, hq]
        exact ih hnd' h

theorem dictLookup_mem {l : Registry} {c : String} {v : Room}
    (h : dictLookup l c = some v) : (c, v) ∈ l := by
  induction l with
  | nil => simp [dictLookup] at h
  | cons p t ih =>
    obtain ⟨k, w⟩ := p
    by_cases hk : k = c
    · subst hk
      simp [dictLookup] at h
      simp [h]
    · simp [dictLookup, hk] at h
      simp [ih h]

theorem keysNodup_filter (l : Registry) (q : String × Room → Bool)
    (h : keysNodup l) : keysNodup (l.filter q) :=
  List.Nodup.sublist (List.Sublist.map Prod.fst (List.filter_sublist l)) h

theorem keysNodup_dictSet (s : Registry) (k : String) (v : Room)
    (h : keysNodup s) : keysNodup (dictSet s k v) := by
  unfold keysNodup
  rw [dictKeys_dictSet]
  exact h

/-! ### Name-resolver lemmas -/

theorem resolveLoop_not_mem (o : String) (p : List String) (fb : String) (fuel : Nat)
    (final : String) (h : final ∉ p) : resolveLoop o p fb fuel final = final := by
  cases fuel <;> simp [resolveLoop, h]

theorem resolveLoop_mem_of_result_mem (o : String) (p : List String) (fb : String) :
    ∀ (fuel : Nat) (final : String), resolveLoop o p fb fuel final ∈ p →
      final ∈ p ∧ ∀ k, 101 - fuel ≤ k → k ≤ 99 → (o ++ "_" ++ Nat.repr k) ∈ p := by
  intro fuel
  induction fuel with
  | zero =>
    intro final h
    simp [resolveLoop] at h
    exact ⟨h, fun k hk1 hk2 => absurd (hk1.trans hk2) (by omega)⟩
  | succ f ih =>
    intro final h
    by_cases hf : final ∈ p
    · by_cases h0 : f = 0
      · subst h0
        exact ⟨hf, fun k hk1 hk2 => absurd (hk1.trans hk2) (by omega)⟩
      · rw [show resolveLoop o p fb (f + 1) final
              = resolveLoop o p fb f (o ++ "_" ++ Nat.repr (100 - f)) by
            simp [resolveLoop, hf, h0]] at h
        obtain ⟨hmem, hall⟩ := ih _ h
        refine ⟨hf, fun k hk1 hk2 => ?_⟩
        by_cases hkeq : k = 100 - f
        · subst hkeq; exact hmem
        · exact hall k (by omega) hk2
    · rw [resolveLoop_not_mem o p fb _ _ hf] at h
      exact absurd h hf

set_option maxRecDepth 8000 in
theorem repr_range_nodup : ((List.range' 1 99).map Nat.repr).Nodup := by decide

theorem append_left_injective (pre : String) :
    Function.Injective fun r : String => pre ++ r := by
  intro a b hab
  apply String.ext
  have := congrArg String.data hab
  simpa [String.data_append] using this

/-- The 100 candidate names the loop can test before falling back:
the request itself and its 99 possible suffixed variants tried in order. -/
def candidateNames (o : String) : List String :=
  o :: (List.range' 1 99).map fun k => o ++ "_" ++ Nat.repr k

theorem candidateNames_nodup (o : String) : (candidateNames o).Nodup := by
  rw [candidateNames, List.nodup_cons]
  constructor
  · intro hmem
    obtain ⟨k, _, hk⟩ := List.mem_map.mp hmem
    have := congrArg String.length hk
    rw [String.length_append, String.length_append, show "_".length = 1 from rfl] at this
    omega
  · have : (fun k => o ++ "_" ++ Nat.repr k) = (fun r => (o ++ "_") ++ r) ∘ Nat.repr := rfl
    rw [this, ← List.map_map]
    exact repr_range_nodup.map (append_left_injective (o ++ "_"))

theorem candidateNames_length (o : String) : (candidateNames o).length = 100 := by
  simp [candidateNames]

theorem candidates_all_taken_length (name : String) (roster : List String)
    (h0 : name ∈ roster)
    (hall : ∀ k, 1 ≤ k → k ≤ 99 → (name ++ "_" ++ Nat.repr k) ∈ roster) :
    100 ≤ roster.length := by
  have hsub : candidateNames name ⊆ roster := by
    intro x hx
    rcases List.mem_cons.mp hx with hx | hx
    · exact hx ▸ h0
    · obtain ⟨k, hk, rfl⟩ := List.mem_map.mp hx
      rw [List.mem_range'] at hk
      exact hall k (by omega) (by omega)
  have hlen := (List.subperm_of_subset (candidateNames_nodup name) hsub).length_le
  rw [candidateNames_length] at hlen
  exact hlen

theorem resolveName_not_mem_of_small (name : String) (roster : List String) (fb : String)
    (hsmall : roster.length < 100) : resolveName name roster fb ∉ roster := by
  intro hmem
  obtain ⟨h0, hall⟩ := resolveLoop_mem_of_result_mem name roster fb 100 name hmem
  have := candidates_all_taken_length name roster h0 fun k hk1 hk2 => hall k (by omega) hk2
  omega

/-- Exhaustive description of one run of the rename loop started at a
taken candidate: either the result is still a roster member (impossible
for small rosters), or the random fallback fired after every remaining
suffixed candidate was found taken, or the result is the first free
suffixed candidate — every earlier one in the `_1, _2, …` order being
taken.  The budget `fuel` corresponds to the Python counter via
`suffix = 101 - fuel`. -/
theorem resolveLoop_trichotomy (o : String) (p : List String) (fb : String) :
    ∀ (fuel : Nat) (final : String), final ∈ p →
      resolveLoop o p fb fuel final ∈ p
      ∨ (resolveLoop o p fb fuel final = o ++ "_" ++ fb
          ∧ ∀ j, 101 - fuel ≤ j → j ≤ 99 → (o ++ "_" ++ Nat.repr j) ∈ p)
      ∨ (∃ k, 101 - fuel ≤ k ∧ k ≤ 99
          ∧ resolveLoop o p fb fuel final = o ++ "_" ++ Nat.repr k
          ∧ (o ++ "_" ++ Nat.repr k) ∉ p
          ∧ ∀ j, 101 - fuel ≤ j → j < k → (o ++ "_" ++ Nat.repr j) ∈ p) := by
  intro fuel
  induction fuel with
  | zero =>
    intro final hf
    left
    simpa [resolveLoop] using hf
  | succ f ih =>
    intro final hf
    by_cases h0 : f = 0
    · subst h0
      right; left
      refine ⟨by simp [resolveLoop, hf], ?_⟩
      intro j hj1 hj2
      exact absurd hj2 (by omega)
    · have hstep : resolveLoop o p fb (f + 1) final
          = resolveLoop o p fb f (o ++ "_" ++ Nat.repr (100 - f)) := by
        simp [resolveLoop, hf, h0]
      by_cases hnext : (o ++ "_" ++ Nat.repr (100 - f)) ∈ p
      · rcases ih _ hnext with hres | ⟨heq, hall⟩ | ⟨k, hk1, hk2, heq, hfree, hbelow⟩
        · left; rw [hstep]; exact hres
        · right; left
          refine ⟨by rw [hstep]; exact heq, ?_⟩
          intro j hj1 hj2
          by_cases hje : j = 100 - f
          · rw [hje]; exact hnext
          · exact hall j (by omega) hj2
        · right; right
          refine ⟨k, by omega, hk2, by rw [hstep]; exact heq, hfree, ?_⟩
          intro j hj1 hj2
          by_cases hje : j = 100 - f
          · rw [hje]; exact hnext
          · exact hbelow j (by omega) hj2
      · right; right
        refine ⟨100 - f, by omega, by omega, ?_, hnext, ?_⟩
        · rw [hstep]
          exact resolveLoop_not_mem o p fb f _ hnext
        · intro j hj1 hj2
          exact absurd hj2 (by omega)

/-! ### Sample data for concrete instantiations -/

/-- A typical `host_info` argument with every key present. -/
def hostInfoSample : HostInfo :=
  { ip := some "192.168.1.10", port := some 5555, public_ip := some "203.0.113.7" }

/-- The host sub-dict `create_room` builds from `hostInfoSample`. -/
def hostSample : Host :=
  { name := "Alice", ip := some "192.168.1.10", port := 5555, public_ip := some "203.0.113.7" }

/-- A one-player room still waiting for an opponent. -/
def waitingRoom : Room :=
  { host := hostSample, players := ["Alice"], status := "waiting",
    created_at := 0, last_activity := 0, max_players := 2 }

/-- A room at capacity whose filling join set the status to `in_progress`. -/
def fullRoom : Room :=
  { host := hostSample, players := ["Alice", "Bob"], status := "in_progress",
    created_at := 0, last_activity := 1, max_players := 2 }

/-- A registry already holding `MAX_ROOMS` rooms, under codes `R0`…`R999`. -/
def bigRegistry : Registry :=
  (List.range' 0 1000).map fun i => ("R" ++ Nat.repr i, waitingRoom)

/-! ### Claims about `create_room` -/

/-- A successful create: the capacity and conflict guards both pass, the
result carries the code, and the new room is stored under it. -/
theorem create_room_success (s : Registry) (code name : String) (h : HostInfo) (now : Int)
    (hcap : s.length < MAX_ROOMS) (hnone : dictLookup s code = none) :
    (create_room s code name h now).2.1 = CreateResult.roomCreated code
      ∧ dictLookup (create_room s code name h now).1 code =
          some { host := { name := name, ip := h.ip, port := h.port.getD 5555,
                           public_ip := h.public_ip },
                 players := [name], status := "waiting",
                 created_at := now, last_activity := now,
                 max_players := MAX_PLAYERS_PER_ROOM } := by
  have hcond : ¬ s.length ≥ MAX_ROOMS := Nat.not_le.mpr hcap
  refine ⟨by simp [create_room, hcond, hnone], ?_⟩
  simp only [create_room, hcond, if_false, hnone, Option.isSome_none, Bool.false_eq_true,
    if_false]
  rw [dictLookup_append_right hnone]
  simp [dictLookup]

/-- Claim C2: for every registry state, CreateRoom returns CapacityExceeded
if the registry already holds `MAX_ROOMS` rooms, returns CodeConflict if the
code is already registered while leaving the registry (hence the registered
room) unmodified, and otherwise succeeds, inserting a room with
`status = waiting`, `players = [playerName]`, and `created_at` and
`last_activity` both set to now. -/
theorem C2_create_room_spec (s : Registry) (code name : String) (h : HostInfo) (now : Int) :
    (MAX_ROOMS ≤ s.length →
      (create_room s code name h now).2.1 = CreateResult.capacityExceeded
        ∧ (create_room s code name h now).1 = s)
    ∧ (s.length < MAX_ROOMS → (dictLookup s code).isSome →
      (create_room s code name h now).2.1 = CreateResult.codeConflict
        ∧ (create_room s code name h now).1 = s)
    ∧ (s.length < MAX_ROOMS → dictLookup s code = none →
      (create_room s code name h now).2.1 = CreateResult.roomCreated code
        ∧ dictLookup (create_room s code name h now).1 code =
            some { host := { name := name, ip := h.ip, port := h.port.getD 5555,
                             public_ip := h.public_ip },
                   players := [name], status := "waiting",
                   created_at := now, last_activity := now,
                   max_players := MAX_PLAYERS_PER_ROOM }) := by
  refine ⟨fun hcap => ?_, fun hlt hsome => ?_, fun hlt hnone => ?_⟩
  · simp [create_room, hcap]
  · simp [create_room, Nat.not_le.mpr hlt, hsome]
  · exact create_room_success s code name h now hlt hnone

/-- Witness for C2 at a concrete input: creating room `ABCD` in the empty
registry succeeds and stores the expected fresh room. -/
theorem C2_witness :
    (create_room [] "ABCD" "Alice" hostInfoSample 0).2.1 = CreateResult.roomCreated "ABCD"
      ∧ dictLookup (create_room [] "ABCD" "Alice" hostInfoSample 0).1 "ABCD" =
          some { host := hostSample, players := ["Alice"], status := "waiting",
                 created_at := 0, last_activity := 0, max_players := 2 } := by
  have h := (C2_create_room_spec [] "ABCD" "Alice" hostInfoSample 0).2.2 (by decide) rfl
  exact ⟨h.1, h.2.trans (by decide)⟩

/-- Claim C9: when the registry is at capacity and the requested code is
also already registered, the capacity check fires first: the result is
CapacityExceeded, not CodeConflict. -/
theorem C9_capacity_precedes_conflict (s : Registry) (code name : String) (h : HostInfo)
    (now : Int) (hcap : MAX_ROOMS ≤ s.length) (_hconf : (dictLookup s code).isSome) :
    (create_room s code name h now).2.1 = CreateResult.capacityExceeded
      ∧ (create_room s code name h now).2.1 ≠ CreateResult.codeConflict := by
  simp [create_room, hcap]

/-- Witness for C9: a registry of 1000 rooms that already contains the
requested code `R0` still answers CapacityExceeded. -/
theorem C9_witness :
    (create_room bigRegistry "R0" "Carol" hostInfoSample 5).2.1
        = CreateResult.capacityExceeded
      ∧ (create_room bigRegistry "R0" "Carol" hostInfoSample 5).2.1
        ≠ CreateResult.codeConflict :=
  C9_capacity_precedes_conflict bigRegistry "R0" "Carol" hostInfoSample 5
    (by simp [bigRegistry, MAX_ROOMS]) (by decide)

/-- Claim C10: a successful CreateRoom stores host port 5555 when the
hostInfo has no port entry, and stores the given port unchanged when it
has one. -/
theorem C10_port_default (s : Registry) (code name : String) (h : HostInfo) (now : Int)
    (hcap : s.length < MAX_ROOMS) (hnone : dictLookup s code = none) :
    ∃ room, dictLookup (create_room s code name h now).1 code = some room
      ∧ room.host.port = h.port.getD 5555
      ∧ (h.port = none → room.host.port = 5555)
      ∧ (∀ p, h.port = some p → room.host.port = p) := by
  refine ⟨_, (create_room_success s code name h now hcap hnone).2, rfl, ?_, ?_⟩
  · intro hp; simp [hp]
  · intro p hp; simp [hp]

/-- Witness for C10 at a concrete input: a hostInfo without a port entry
yields a stored port of 5555. -/
theorem C10_witness :
    ∃ room,
      dictLookup (create_room [] "ABCD" "Alice" ⟨some "192.168.1.10", none, none⟩ 0).1 "ABCD"
          = some room
        ∧ room.host.port = (none : Option Nat).getD 5555
        ∧ ((none : Option Nat) = none → room.host.port = 5555)
        ∧ (∀ p, (none : Option Nat) = some p → room.host.port = p) :=
  C10_port_default [] "ABCD" "Alice" ⟨some "192.168.1.10", none, none⟩ 0 (by decide) rfl

/-! ### Claim about the name resolver -/

/-- Claim C4: for every requested name and roster of fewer than 100 names
the resolver terminates (it is a total function here) and returns a name
not present in the roster; a free requested name is returned unchanged,
and a taken one gets the suffixed candidates `name_1, name_2, …` tried in
order: the result is the first free one — some `name_k` not in the roster
with every earlier `name_j` (`1 ≤ j < k`) taken. -/
theorem C4_resolver (name : String) (roster : List String) (fb : String)
    (hsmall : roster.length < 100) :
    resolveName name roster fb ∉ roster
    ∧ (name ∉ roster → resolveName name roster fb = name)
    ∧ (name ∈ roster → ∃ k, 1 ≤ k
        ∧ resolveName name roster fb = name ++ "_" ++ Nat.repr k
        ∧ name ++ "_" ++ Nat.repr k ∉ roster
        ∧ ∀ j, 1 ≤ j → j < k → name ++ "_" ++ Nat.repr j ∈ roster) := by
  refine ⟨resolveName_not_mem_of_small name roster fb hsmall, ?_, ?_⟩
  · intro hn
    exact resolveLoop_not_mem name roster fb 100 name hn
  · intro hn
    rcases resolveLoop_trichotomy name roster fb 100 name hn with
      hres | ⟨heq, hall⟩ | ⟨k, hk1, hk2, heq, hfree, hbelow⟩
    · exact absurd hres (resolveName_not_mem_of_small name roster fb hsmall)
    · have := candidates_all_taken_length name roster hn fun k hk1 hk2 => hall k (by omega) hk2
      omega
    · exact ⟨k, by omega, heq, hfree, fun j hj1 hj2 => hbelow j (by omega) hj2⟩

/-- Witness for C4 at concrete inputs: against `["Alice", "Alice_1"]` the
suffixes are tried in order and the request resolves to the first free
candidate `Alice_2`, which the theorem certifies fresh; against
`["Alice"]` (Scenario C of the spec) it resolves to `Alice_1`. -/
theorem C4_witness :
    (["Alice", "Alice_1"] : List String).length < 100
      ∧ resolveName "Alice" ["Alice", "Alice_1"] "ab12" = "Alice_2"
      ∧ resolveName "Alice" ["Alice", "Alice_1"] "ab12" ∉ (["Alice", "Alice_1"] : List String)
      ∧ resolveName "Alice" ["Alice"] "ab12" = "Alice_1" := by
  have h := C4_resolver "Alice" ["Alice", "Alice_1"] "ab12" (by decide)
  exact ⟨by decide, by decide, h.1, by decide⟩

/-! ### Claims about `join_room` -/

/-- Counterexample to claim C1 as stated: `fullRoom` holds
`MAX_PLAYERS_PER_ROOM` players and has `status = in_progress` (exactly
Scenario D of the spec), yet `JoinRoom` answers
`"Room is not accepting players"` — not `"Room is full"` — because the
status check precedes the capacity check in `join_room`. -/
theorem C1_counterexample :
    fullRoom.players.length = MAX_PLAYERS_PER_ROOM
      ∧ fullRoom.status = "in_progress"
      ∧ (join_room [("ABCD", fullRoom)] "ABCD" "Carol" 2 "t").2.1
          = Sum.inr JoinError.roomNotAcceptingPlayers
      ∧ (join_room [("ABCD", fullRoom)] "ABCD" "Carol" 2 "t").2.1
          ≠ Sum.inr JoinError.roomFull := by
  decide

/-- Claim C1 (amended): once a room holds `MAX_PLAYERS_PER_ROOM` players,
every further JoinRoom on it fails without touching the registry: with
RoomNotAcceptingPlayers when its status is not `waiting` (the normal case,
the filling join having set `in_progress`), and with RoomFull only when
the status is still `waiting`. -/
theorem C1_full_room_join_fails (s : Registry) (code name : String) (now : Int) (fb : String)
    (room : Room) (hr : dictLookup s code = some room)
    (hfull : room.max_players ≤ room.players.length) :
    (join_room s code name now fb).1 = s
      ∧ (join_room s code name now fb).2.2 = []
      ∧ (room.status ≠ "waiting" →
          (join_room s code name now fb).2.1 = Sum.inr JoinError.roomNotAcceptingPlayers)
      ∧ (room.status = "waiting" →
          (join_room s code name now fb).2.1 = Sum.inr JoinError.roomFull) := by
  by_cases hst : room.status = "waiting"
  · simp [join_room, hr, hst, hfull]
  · simp [join_room, hr, hst]

/-- Witness for C1 (amended) at the full `in_progress` room. -/
theorem C1_witness :
    (join_room [("ABCD", fullRoom)] "ABCD" "Dave" 3 "t").1 = [("ABCD", fullRoom)]
      ∧ (join_room [("ABCD", fullRoom)] "ABCD" "Dave" 3 "t").2.1
          = Sum.inr JoinError.roomNotAcceptingPlayers := by
  have h := C1_full_room_join_fails [("ABCD", fullRoom)] "ABCD" "Dave" 3 "t" fullRoom
    rfl (by decide)
  exact ⟨h.1, h.2.2.1 (by decide)⟩

/-- Claim C3: a successful JoinRoom on a waiting room with spare capacity
appends the resolved name, stamps `last_activity = now`, switches the
status to `in_progress` exactly when the player count reaches
`max_players`, and returns the host connection info, the updated player
list and status, the resolved name, and a flag that is true iff the
resolved name differs from the requested one. -/
theorem C3_join_success (s : Registry) (code name : String) (now : Int) (fb : String)
    (room : Room) (hr : dictLookup s code = some room)
    (hw : room.status = "waiting")
    (hcap : room.players.length < room.max_players) :
    (join_room s code name now fb).2.1 =
      Sum.inl
        { host_ip := room.host.ip,
          host_port := room.host.port,
          public_ip := room.host.public_ip,
          players := room.players ++ [resolveName name room.players fb],
          status := if room.players.length + 1 = room.max_players then "in_progress"
                    else "waiting",
          player_name := resolveName name room.players fb,
          name_changed := resolveName name room.players fb != name }
    ∧ dictLookup (join_room s code name now fb).1 code =
        some { room with
               players := room.players ++ [resolveName name room.players fb],
               last_activity := now,
               status := if room.players.length + 1 = room.max_players then "in_progress"
                         else "waiting" }
    ∧ ((resolveName name room.players fb != name) = true
        ↔ resolveName name room.players fb ≠ name) := by
  have hnot : ¬ room.players.length ≥ room.max_players := Nat.not_le.mpr hcap
  unfold join_room
  rw [hr]
  simp only [hw, ne_eq, not_true_eq_false, if_false, hnot, List.length_append,
    List.length_cons, List.length_nil, Nat.zero_add]
  by_cases hmax : room.players.length + 1 = room.max_players
  · rw [if_pos (show room.players.length + 1 ≥ room.max_players from by omega),
      if_pos hmax]
    refine ⟨rfl, ?_, by simp⟩
    rw [dictLookup_dictSet_self, hr]
    rfl
  · rw [if_neg (show ¬ room.players.length + 1 ≥ room.max_players from by omega),
      if_neg hmax]
    refine ⟨rfl, ?_, by simp⟩
    rw [dictLookup_dictSet_self, hr]
    rfl

/-- Witness for C3, Scenario A of the spec: Bob joins Alice's waiting
room, the roster becomes `["Alice", "Bob"]`, the status flips to
`in_progress`, the name is unchanged and the flag is false. -/
theorem C3_witness :
    (join_room [("ABCD", waitingRoom)] "ABCD" "Bob" 1 "t").2.1 =
      Sum.inl
        { host_ip := some "192.168.1.10",
          host_port := 5555,
          public_ip := some "203.0.113.7",
          players := ["Alice", "Bob"],
          status := "in_progress",
          player_name := "Bob",
          name_changed := false }
    ∧ dictLookup (join_room [("ABCD", waitingRoom)] "ABCD" "Bob" 1 "t").1 "ABCD" =
        some { host := hostSample, players := ["Alice", "Bob"], status := "in_progress",
               created_at := 0, last_activity := 1, max_players := 2 } := by
  have h := C3_join_success [("ABCD", waitingRoom)] "ABCD" "Bob" 1 "t" waitingRoom
    rfl rfl (by decide)
  exact ⟨h.1.trans (by decide), h.2.1.trans (by decide)⟩

/-! ### Claim about the reaper -/

/-- Claim C5: `cleanup_old_rooms` removes exactly the rooms whose
`last_activity` is strictly older than `ROOM_TIMEOUT` relative to `now`
and returns their count; rooms within the timeout are untouched, and a
subsequent GetRoom (and the ListRooms room map) shows removed rooms as
absent and retained rooms as present, unmodified. -/
theorem C5_cleanup (s : Registry) (now : Int) (hnd : keysNodup s) :
    (cleanup_old_rooms s now).2.1 = (s.filter (expired now)).length
    ∧ (∀ code room, get_room_info s code = some room →
        get_room_info (cleanup_old_rooms s now).1 code
          = if now - room.last_activity > ROOM_TIMEOUT then none else some room)
    ∧ (∀ code, get_room_info s code = none →
        get_room_info (cleanup_old_rooms s now).1 code = none)
    ∧ (∀ code room, (code, room) ∈ (list_rooms (cleanup_old_rooms s now).1).1
        ↔ (code, room) ∈ (list_rooms s).1 ∧ ¬ now - room.last_activity > ROOM_TIMEOUT) := by
  refine ⟨by simp [cleanup_old_rooms], fun code room h => ?_, fun code h => ?_,
    fun code room => ?_⟩
  · unfold get_room_info at h ⊢
    unfold cleanup_old_rooms
    rw [dictLookup_filter _ hnd h]
    by_cases hex : now - room.last_activity > ROOM_TIMEOUT
    · simp [expired, hex]
    · simp [expired, hex]
  · unfold get_room_info at h ⊢
    unfold cleanup_old_rooms
    exact dictLookup_filter_of_none _ h
  · simp [list_rooms, cleanup_old_rooms, List.mem_filter, expired]

/-- Witness for C5, Scenario E of the spec: a single room idle for 601
seconds against a 600-second timeout is reaped, with count 1 and a
subsequent lookup finding nothing. -/
theorem C5_witness :
    (cleanup_old_rooms [("ABCD", waitingRoom)] 601).2.1 = 1
      ∧ get_room_info (cleanup_old_rooms [("ABCD", waitingRoom)] 601).1 "ABCD" = none := by
  have h := C5_cleanup [("ABCD", waitingRoom)] 601 (by unfold keysNodup; decide)
  exact ⟨h.1.trans (by decide), (h.2.1 "ABCD" waitingRoom rfl).trans (by decide)⟩

/-! ### Claim about persistence -/

/-- Claim C8: every mutating operation writes exactly one registry
snapshot, whose content is the post-mutation registry (so the write
happens after the in-memory mutation commits), and an operation that
returns an error — or a sweep that removes nothing — writes no snapshot
and leaves the registry untouched. -/
theorem C8_persistence (s : Registry) (code name st : String) (h : HostInfo) (now : Int)
    (fb : String) :
    ((create_room s code name h now).2.1 = CreateResult.roomCreated code →
        (create_room s code name h now).2.2 = [(create_room s code name h now).1])
    ∧ ((create_room s code name h now).2.1 = CreateResult.capacityExceeded
          ∨ (create_room s code name h now).2.1 = CreateResult.codeConflict →
        (create_room s code name h now).2.2 = [] ∧ (create_room s code name h now).1 = s)
    ∧ (∀ j, (join_room s code name now fb).2.1 = Sum.inl j →
        (join_room s code name now fb).2.2 = [(join_room s code name now fb).1])
    ∧ (∀ e, (join_room s code name now fb).2.1 = Sum.inr e →
        (join_room s code name now fb).2.2 = [] ∧ (join_room s code name now fb).1 = s)
    ∧ ((update_room_status s code st now).2.1 = true →
        (update_room_status s code st now).2.2 = [(update_room_status s code st now).1])
    ∧ ((update_room_status s code st now).2.1 = false →
        (update_room_status s code st now).2.2 = []
          ∧ (update_room_status s code st now).1 = s)
    ∧ ((close_room s code).2.1 = true →
        (close_room s code).2.2 = [(close_room s code).1])
    ∧ ((close_room s code).2.1 = false →
        (close_room s code).2.2 = [] ∧ (close_room s code).1 = s)
    ∧ ((cleanup_old_rooms s now).2.1 ≠ 0 →
        (cleanup_old_rooms s now).2.2 = [(cleanup_old_rooms s now).1])
    ∧ ((cleanup_old_rooms s now).2.1 = 0 →
        (cleanup_old_rooms s now).2.2 = [] ∧ (cleanup_old_rooms s now).1 = s) := by
  refine ⟨?_, ?_, ?_, ?_, ?_, ?_, ?_, ?_, ?_, ?_⟩
  · intro hres
    by_cases h1 : s.length ≥ MAX_ROOMS
    · simp [create_room, h1] at hres
    · by_cases h2 : (dictLookup s code).isSome
      · simp [create_room, h1, h2] at hres
      · simp [create_room, h1, h2]
  · intro hres
    by_cases h1 : s.length ≥ MAX_ROOMS
    · simp [create_room, h1]
    · by_cases h2 : (dictLookup s code).isSome
      · simp [create_room, h1, h2]
      · simp [create_room, h1, h2] at hres
  · intro j hres
    unfold join_room at hres ⊢
    cases hlk : dictLookup s code with
    | none => rw [hlk] at hres; simp at hres
    | some room =>
      rw [hlk] at hres
      by_cases h1 : room.status ≠ "waiting"
      · simp [h1] at hres
      · by_cases h2 : room.players.length ≥ room.max_players
        · simp [h1, h2] at hres
        · simp [h1, h2]
  · intro e hres
    unfold join_room at hres ⊢
    cases hlk : dictLookup s code with
    | none => exact ⟨rfl, rfl⟩
    | some room =>
      rw [hlk] at hres
      by_cases h1 : room.status ≠ "waiting"
      · simp [h1]
      · by_cases h2 : room.players.length ≥ room.max_players
        · simp [h1, h2]
        · simp [h1, h2] at hres
  · intro hres
    unfold update_room_status at hres ⊢
    cases hlk : dictLookup s code with
    | none => rw [hlk] at hres; simp at hres
    | some room => exact rfl
  · intro hres
    unfold update_room_status at hres ⊢
    cases hlk : dictLookup s code with
    | none => exact ⟨rfl, rfl⟩
    | some room => rw [hlk] at hres; simp at hres
  · intro hres
    by_cases h1 : (dictLookup s code).isSome
    · simp [close_room, h1]
    · simp [close_room, h1] at hres
  · intro hres
    by_cases h1 : (dictLookup s code).isSome
    · simp [close_room, h1] at hres
    · simp [close_room, h1]
  · intro hres
    unfold cleanup_old_rooms at hres ⊢
    simp only [ne_eq, List.length_eq_zero] at hres
    simp [hres]
  · intro hres
    unfold cleanup_old_rooms at hres ⊢
    simp only [List.length_eq_zero] at hres
    have hfil : s.filter (expired now) = [] := by simpa using hres
    have hall : ∀ p ∈ s, ¬ expired now p := List.filter_eq_nil_iff.mp hfil
    have hkeep : s.filter (fun p => !expired now p) = s :=
      List.filter_eq_self.mpr fun p hp => by simp [hall p hp]
    simp [hres, hkeep]

/-- Witness for C8 at concrete inputs: a successful create on the empty
registry writes exactly its post-state, and a sweep that removes nothing
writes nothing and changes nothing. -/
theorem C8_witness :
    (create_room [] "ABCD" "Alice" hostInfoSample 0).2.2
        = [(create_room [] "ABCD" "Alice" hostInfoSample 0).1]
      ∧ (cleanup_old_rooms [("ABCD", waitingRoom)] 10).2.2 = []
      ∧ (cleanup_old_rooms [("ABCD", waitingRoom)] 10).1 = [("ABCD", waitingRoom)] := by
  have h1 := (C8_persistence [] "ABCD" "Alice" "waiting" hostInfoSample 0 "t").1 (by decide)
  have h2 := (C8_persistence [("ABCD", waitingRoom)] "ABCD" "Alice" "waiting"
    hostInfoSample 10 "t").2.2.2.2.2.2.2.2.2 (by decide)
  exact ⟨h1, h2.1, h2.2⟩

/-! ### Preservation lemmas for operation sequences -/

theorem keysNodup_append_single (s : Registry) (c : String) (v : Room)
    (h : keysNodup s) (hc : dictLookup s c = none) : keysNodup (s ++ [(c, v)]) := by
  have hmem := (dictLookup_eq_none_iff s c).mp hc
  simp only [keysNodup, dictKeys, List.map_append, List.map_cons, List.map_nil,
    List.nodup_append, List.nodup_cons, List.not_mem_nil, not_false_eq_true,
    List.nodup_nil, and_true, true_and] at h hmem ⊢
  exact ⟨h, fun x hx => by
    simp only [List.mem_singleton]
    intro hxc
    exact hmem (hxc ▸ hx)⟩

theorem keysNodup_applyOp (s : Registry) (op : Op) (h : keysNodup s) :
    keysNodup (applyOp s op) := by
  cases op with
  | create c n hi t =>
    show keysNodup (create_room s c n hi t).1
    unfold create_room
    by_cases h1 : s.length ≥ MAX_ROOMS
    · simpa [h1]
    · by_cases h2 : (dictLookup s c).isSome
      · simpa [h1, h2]
      · have hnone : dictLookup s c = none := by
          cases hd : dictLookup s c with
          | none => rfl
          | some v => rw [hd] at h2; simp at h2
        simp only [h1, if_false, h2, Bool.false_eq_true]
        exact keysNodup_append_single s c _ h hnone
  | join c n t fb =>
    show keysNodup (join_room s c n t fb).1
    unfold join_room
    cases hlk : dictLookup s c with
    | none => exact h
    | some room =>
      by_cases h1 : room.status ≠ "waiting"
      · simpa [h1]
      · by_cases h2 : room.players.length ≥ room.max_players
        · simpa [h1, h2]
        · simp only [h1, h2, if_false]
          exact keysNodup_dictSet s c _ h
  | updateStatus c st t =>
    show keysNodup (update_room_status s c st t).1
    unfold update_room_status
    cases hlk : dictLookup s c with
    | none => exact h
    | some room => exact keysNodup_dictSet s c _ h
  | close c =>
    show keysNodup (close_room s c).1
    unfold close_room
    by_cases h1 : (dictLookup s c).isSome
    · simp only [h1, if_true]
      exact keysNodup_filter s _ h
    · simpa [h1]
  | cleanup t =>
    show keysNodup (cleanup_old_rooms s t).1
    unfold cleanup_old_rooms
    exact keysNodup_filter s _ h

theorem keysNodup_runOps (s : Registry) (ops : List Op) (h : keysNodup s) :
    keysNodup (runOps s ops) := by
  induction ops generalizing s with
  | nil => exact h
  | cons op t ih => exact ih (applyOp s op) (keysNodup_applyOp s op h)

theorem applyOp_status_step (s : Registry) (op : Op) (c : String) (r r' : Room)
    (hnd : keysNodup s) (hop : isUpdateStatusOp op = false)
    (hb : dictLookup s c = some r) (ha : dictLookup (applyOp s op) c = some r') :
    r'.status = r.status ∨ (r.status = "waiting" ∧ r'.status = "in_progress") := by
  cases op with
  | create c' n hi t =>
    replace ha : dictLookup (create_room s c' n hi t).1 c = some r' := ha
    unfold create_room at ha
    by_cases h1 : s.length ≥ MAX_ROOMS
    · rw [if_pos h1] at ha
      dsimp only at ha
      left; rw [hb] at ha; injection ha with ha; rw [ha]
    · rw [if_neg h1] at ha
      by_cases h2 : (dictLookup s c').isSome
      · rw [if_pos h2] at ha
        dsimp only at ha
        left; rw [hb] at ha; injection ha with ha; rw [ha]
      · rw [if_neg h2] at ha
        dsimp only at ha
        rw [dictLookup_append_left hb] at ha
        left; injection ha with ha; rw [ha]
  | join c' n t fb =>
    replace ha : dictLookup (join_room s c' n t fb).1 c = some r' := ha
    unfold join_room at ha
    cases hlk : dictLookup s c' with
    | none =>
      rw [hlk] at ha
      dsimp only at ha
      left; rw [hb] at ha; injection ha with ha; rw [ha]
    | some room =>
      rw [hlk] at ha
      dsimp only at ha
      by_cases h1 : room.status ≠ "waiting"
      · rw [if_pos h1] at ha
        dsimp only at ha
        left; rw [hb] at ha; injection ha with ha; rw [ha]
      · by_cases h2 : room.players.length ≥ room.max_players
        · rw [if_neg h1, if_pos h2] at ha
          dsimp only at ha
          left; rw [hb] at ha; injection ha with ha; rw [ha]
        · rw [if_neg h1, if_neg h2] at ha
          dsimp only at ha
          have hw : room.status = "waiting" := not_not.mp h1
          by_cases hc : c = c'
          · subst hc
            rw [hb] at hlk
            injection hlk with hrr
            rw [dictLookup_dictSet_self, hb] at ha
            simp only [Option.map_some'] at ha
            injection ha with ha2
            by_cases hm :
              (room.players ++ [resolveName n room.players fb]).length ≥ room.max_players
            · rw [if_pos hm] at ha2
              right
              refine ⟨by rw [hrr]; exact hw, ?_⟩
              rw [← ha2]
            · rw [if_neg hm] at ha2
              left
              rw [← ha2, hrr]
          · rw [dictLookup_dictSet_ne s c' _ c hc] at ha
            left; rw [hb] at ha; injection ha with ha; rw [ha]
  | updateStatus c' st t =>
    simp [isUpdateStatusOp] at hop
  | close c' =>
    replace ha : dictLookup (close_room s c').1 c = some r' := ha
    unfold close_room at ha
    by_cases h1 : (dictLookup s c').isSome
    · rw [if_pos h1] at ha
      dsimp only at ha
      rw [dictLookup_filter_key] at ha
      by_cases hc : c = c'
      · rw [if_pos hc] at ha
        exact absurd ha (by simp)
      · rw [if_neg hc] at ha
        left; rw [hb] at ha; injection ha with ha; rw [ha]
    · rw [if_neg h1] at ha
      dsimp only at ha
      left; rw [hb] at ha; injection ha with ha; rw [ha]
  | cleanup t =>
    replace ha : dictLookup (cleanup_old_rooms s t).1 c = some r' := ha
    unfold cleanup_old_rooms at ha
    dsimp only at ha
    rw [dictLookup_filter _ hnd hb] at ha
    by_cases hk : (!expired t (c, r)) = true
    · rw [if_pos hk] at ha
      left; injection ha with ha; rw [ha]
    · rw [if_neg hk] at ha
      exact absurd ha (by simp)

theorem statusRank_step {r r' : Room}
    (h : r'.status = r.status ∨ (r.status = "waiting" ∧ r'.status = "in_progress")) :
    statusRank r.status ≤ statusRank r'.status := by
  rcases h with h | ⟨h1, h2⟩
  · rw [h]
  · rw [h1, h2]
    decide

/-- Claim C6 (amended): excluding the administrative update-status override
(which can install any status and so can move a room backward — the spec's
documented relaxation), a room's status is non-decreasing under
`waiting < in_progress < completed` along any operation sequence during
which the room stays present. -/
theorem C6_status_monotone (s : Registry) (ops : List Op) (c : String) (r r' : Room)
    (hnd : keysNodup s)
    (hops : ∀ op ∈ ops, isUpdateStatusOp op = false)
    (hlive : ∀ n : Nat, (dictLookup (runOps s (ops.take n)) c).isSome)
    (hb : dictLookup s c = some r)
    (ha : dictLookup (runOps s ops) c = some r') :
    statusRank r.status ≤ statusRank r'.status := by
  induction ops generalizing s r with
  | nil =>
    replace ha : dictLookup s c = some r' := ha
    rw [hb] at ha
    injection ha with ha
    rw [ha]
  | cons op t ih =>
    have h1 := hlive 1
    obtain ⟨r1, hr1⟩ := Option.isSome_iff_exists.mp h1
    replace hr1 : dictLookup (applyOp s op) c = some r1 := hr1
    have hstep := applyOp_status_step s op c r r1 hnd (hops op (by simp)) hb hr1
    have ih' := ih (applyOp s op) r1 (keysNodup_applyOp s op hnd)
      (fun o ho => hops o (by simp [ho]))
      (fun n => hlive (n + 1))
      hr1 ha
    exact le_trans (statusRank_step hstep) ih'

/-- A create followed by the join that fills the room, from the empty
registry: the canonical forward-only lifecycle prefix. -/
def opsTwo : List Op :=
  [Op.create "ABCD" "Alice" hostInfoSample 0, Op.join "ABCD" "Bob" 1 "t"]

/-- Counterexample to claim C6 as stated: an update-status call is one of
the quantified registry operations, yet it moves the room from
`in_progress` back to `waiting` — the status does revert. -/
theorem C6_counterexample :
    (dictLookup (runOps [] opsTwo) "ABCD").map Room.status = some "in_progress"
      ∧ (dictLookup (applyOp (runOps [] opsTwo) (Op.updateStatus "ABCD" "waiting" 2))
            "ABCD").map Room.status = some "waiting"
      ∧ statusRank "waiting" < statusRank "in_progress" := by
  decide

/-- The room stored after Bob's join fills `waitingRoom`. -/
def joinedRoom : Room :=
  { host := hostSample, players := ["Alice", "Bob"], status := "in_progress",
    created_at := 0, last_activity := 1, max_players := 2 }

/-- Witness for C6 (amended): along the join that fills Alice's room the
rank of the status does not decrease. -/
theorem C6_witness : statusRank waitingRoom.status ≤ statusRank joinedRoom.status :=
  C6_status_monotone [("ABCD", waitingRoom)] [Op.join "ABCD" "Bob" 1 "t"] "ABCD"
    waitingRoom joinedRoom
    (by unfold keysNodup; decide)
    (by decide)
    (fun n => by
      cases n with
      | zero => decide
      | succ m =>
        show (dictLookup (runOps [("ABCD", waitingRoom)]
          ([Op.join "ABCD" "Bob" 1 "t"].take (m + 1))) "ABCD").isSome
        rw [List.take_succ_cons, List.take_nil]
        decide)
    rfl
    (by decide)

theorem mem_dictSet {s : Registry} {k : String} {v : Room} {p : String × Room}
    (hp : p ∈ dictSet s k v) : p ∈ s ∨ p = (k, v) := by
  induction s with
  | nil => simp [dictSet] at hp
  | cons q t ih =>
    obtain ⟨k', w⟩ := q
    by_cases hk : k' = k
    · rw [dictSet, if_pos hk] at hp
      rcases List.mem_cons.mp hp with h | h
      · right; exact h
      · rcases ih h with h | h
        · left; exact List.mem_cons_of_mem _ h
        · right; exact h
    · rw [dictSet, if_neg hk] at hp
      rcases List.mem_cons.mp hp with h | h
      · left; exact h ▸ List.mem_cons_self _ _
      · rcases ih h with h2 | h2
        · left; exact List.mem_cons_of_mem _ h2
        · right; exact h2

theorem allRecognized_applyOp (s : Registry) (op : Op)
    (h : allRecognized s)
    (hop : ∀ c st t, op = Op.updateStatus c st t → recognizedStatus st) :
    allRecognized (applyOp s op) := by
  cases op with
  | create c n hi t =>
    show allRecognized (create_room s c n hi t).1
    unfold create_room
    by_cases h1 : s.length ≥ MAX_ROOMS
    · rw [if_pos h1]; exact h
    · rw [if_neg h1]
      by_cases h2 : (dictLookup s c).isSome
      · rw [if_pos h2]; exact h
      · rw [if_neg h2]
        intro p hp
        rcases List.mem_append.mp hp with hmem | hmem
        · exact h p hmem
        · have : p = (c, _) := List.mem_singleton.mp hmem
          rw [this]
          left; rfl
  | join c n t fb =>
    show allRecognized (join_room s c n t fb).1
    unfold join_room
    cases hlk : dictLookup s c with
    | none => exact h
    | some room =>
      dsimp only
      by_cases h1 : room.status ≠ "waiting"
      · rw [if_pos h1]; exact h
      · rw [if_neg h1]
        by_cases h2 : room.players.length ≥ room.max_players
        · rw [if_pos h2]; exact h
        · rw [if_neg h2]
          intro p hp
          rcases mem_dictSet hp with hmem | hmem
          · exact h p hmem
          · rw [hmem]
            by_cases hm :
              (room.players ++ [resolveName n room.players fb]).length ≥ room.max_players
            · simp only [if_pos hm]
              right; left; rfl
            · simp only [if_neg hm]
              exact h (c, room) (dictLookup_mem hlk)
  | updateStatus c st t =>
    show allRecognized (update_room_status s c st t).1
    unfold update_room_status
    cases hlk : dictLookup s c with
    | none => exact h
    | some room =>
      intro p hp
      rcases mem_dictSet hp with hmem | hmem
      · exact h p hmem
      · rw [hmem]
        exact hop c st t rfl
  | close c =>
    show allRecognized (close_room s c).1
    unfold close_room
    by_cases h1 : (dictLookup s c).isSome
    · rw [if_pos h1]
      intro p hp
      exact h p (List.mem_filter.mp hp).1
    · rw [if_neg h1]; exact h
  | cleanup t =>
    show allRecognized (cleanup_old_rooms s t).1
    intro p hp
    exact h p (List.mem_filter.mp hp).1

/-- Claim C7 (amended): `update_room_status` installs its argument without
validation (see the counterexample), but provided every update-status call
in a run passes a recognized status string, every room reachable from a
registry of recognized statuses still carries one of `waiting`,
`in_progress`, `completed` — create and join only ever install recognized
values. -/
theorem C7_recognized_invariant (s : Registry) (ops : List Op)
    (hs : allRecognized s)
    (hops : ∀ op ∈ ops, ∀ c st t, op = Op.updateStatus c st t → recognizedStatus st) :
    allRecognized (runOps s ops) := by
  induction ops generalizing s with
  | nil => exact hs
  | cons op t ih =>
    exact ih (applyOp s op)
      (allRecognized_applyOp s op hs (fun c st tm heq => hops op (by simp) c st tm heq))
      (fun o ho c st tm heq => hops o (by simp [ho]) c st tm heq)

/-- Counterexample to claim C7 as stated: `update_room_status` happily
installs the unrecognized string `banana` as a room's status. -/
theorem C7_counterexample :
    (update_room_status [("ABCD", waitingRoom)] "ABCD" "banana" 5).2.1 = true
      ∧ dictLookup (update_room_status [("ABCD", waitingRoom)] "ABCD" "banana" 5).1 "ABCD"
          = some { waitingRoom with status := "banana", last_activity := 5 }
      ∧ ¬ recognizedStatus "banana" := by
  refine ⟨rfl, rfl, ?_⟩
  intro hrec
  rcases hrec with h | h | h <;> simp at h

/-- The canonical lifecycle with a final legitimate `completed` override. -/
def opsThree : List Op := opsTwo ++ [Op.updateStatus "ABCD" "completed" 2]

/-- Witness for C7 (amended): running create, join, and a `completed`
update from the empty registry leaves only recognized statuses. -/
theorem C7_witness : allRecognized (runOps [] opsThree) :=
  C7_recognized_invariant [] opsThree
    (by intro p hp; simp at hp)
    (by
      intro op hmem c st t heq
      subst heq
      simp only [opsThree, opsTwo, List.cons_append, List.nil_append, List.mem_cons,
        List.not_mem_nil, or_false] at hmem
      rcases hmem with h | h | h
      · exact absurd h (by simp)
      · exact absurd h (by simp)
      · injection h with h1 h2 h3
        rw [h2]
        right; right; rfl)
